import Mathlib

/-!
Verification of the configuration subsystem of `microsetta_public_api`
(`src/microsetta_public_api/config.py`).

The module defines an Element tree over decoded JSON values (`Element`,
`DictElement`, `ListElement`, literal wrappers produced by
`create_literal_element`, `MetadataElement`, and the typed markers
`AlphaElement` / `TaxonomyElement` / `PCOAElement`), path operations
`gets` / `has` / `updates`, a visitor `accept` protocol, an
`ElementFactory`, JSON-Schema validation, and `make_elements`, which
turns a decoded JSON document into an Element tree.

The embedding models Python values by an inductive type `Val` whose
constructors record both the payload and how it is wrapped (a bare
decoded JSON value versus an `Element` subclass instance), because the
source's behaviour depends on exactly that distinction (`hasattr(child,
'gets')`, `isinstance(self[first], dict)`, and so on).
-/

set_option linter.unusedVariables false

namespace MicrosettaConfig

/-- A path segment accepted by `gets` / `has` / `updates`: the docstrings
of `Element.gets` (config.py line 83) state the keys are `str` or `int`. -/
inductive Key where
  | kstr (s : String)
  | kint (i : Int)
deriving DecidableEq

/-- Wrapping status of a Python `int` / `float` value: a bare number as
decoded from JSON, or a `create_literal_element(int/float)` instance
(which subclasses both `Element` and the numeric type). -/
inductive NWrap where
  | rawW
  | litW
deriving DecidableEq

/-- Wrapping status of a Python `str` value: a bare string, a
`create_literal_element(str)` instance, or a `MetadataElement`
(config.py line 232, `class MetadataElement(str, Element)`). -/
inductive SKind where
  | rawS
  | litS
  | metadataS
deriving DecidableEq

/-- Wrapping status of a Python `list` value: a bare list or a
`ListElement` (config.py line 202). -/
inductive LKind where
  | rawL
  | elemL
deriving DecidableEq

/-- Wrapping status of a Python `dict` value: a bare dict, a
`DictElement` (config.py line 159), or one of its typed subclasses
`AlphaElement` / `TaxonomyElement` / `PCOAElement` (lines 214-229). -/
inductive DKind where
  | rawD
  | plainD
  | alphaD
  | taxonomyD
  | pcoaD
deriving DecidableEq

/-- Python values handled by config.py: decoded JSON values (`None`,
`bool`, `int`, `float`, `str`, `list`, `dict`, all with `rawW` / `rawS`
/ `rawL` / `rawD` wrapping), the corresponding `Element` instances, and
`vother` for a value of any other Python type (the fall-through case of
`ElementFactory.get_element`, which records the offending type's name).
Python dicts are modelled as association lists preserving insertion
order, which is how `dict` iteration and `dict.update` behave; floats
are carried as opaque rational payloads, no arithmetic is performed on
them anywhere in the source. -/
inductive Val where
  | vnone
  | vbool (b : Bool)
  | vint (w : NWrap) (n : Int)
  | vfloat (w : NWrap) (q : ℚ)
  | vstr (k : SKind) (s : String)
  | vlist (k : LKind) (xs : List Val)
  | vdict (k : DKind) (es : List (Key × Val))
  | vother (typeName : String)

/-- First-match association-list lookup, the behaviour of `self[first]`
on a Python dict (a real dict has unique keys; on duplicate keys the
model consistently takes the first occurrence everywhere). -/
def lookupKey : List (Key × Val) → Key → Option Val
  | [], _ => none
  | (k0, v0) :: rest, k => if k0 = k then some v0 else lookupKey rest k

/-- Python `d[k] = v` on a dict: replace the value at an existing key in
place (keeping its position), otherwise append a new entry; this is also
what `self.update(DictElement({first: value}))` does at config.py
line 193. -/
def dictSet : List (Key × Val) → Key → Val → List (Key × Val)
  | [], k, v => [(k, v)]
  | (k0, v0) :: rest, k, v =>
    if k0 = k then (k0, v) :: rest else (k0, v0) :: dictSet rest k v

/-- Python list indexing `xs[i]`: valid for `0 <= i < len`, negative
indices count from the end (`-len <= i < 0`), anything else raises
`IndexError` (modelled as `none`). -/
def pyListGet (xs : List Val) (i : Int) : Option Val :=
  if 0 ≤ i ∧ i < (xs.length : Int) then xs.get? i.toNat
  else if -(xs.length : Int) ≤ i ∧ i < 0 then xs.get? (i + xs.length).toNat
  else none

/-- Python string indexing `s[i]`: returns a fresh one-character plain
`str`; negative indices count from the end; out of range raises
`IndexError` (modelled as `none`). -/
def pyStrGet (s : String) (i : Int) : Option String :=
  let cs := s.data
  let pick : Nat → Option String := fun n => (cs.get? n).map (fun c => String.mk [c])
  if 0 ≤ i ∧ i < (cs.length : Int) then pick i.toNat
  else if -(cs.length : Int) ≤ i ∧ i < 0 then pick (i + cs.length).toNat
  else none

/-- Python subscription `self[first]` as used inside `Element.gets`
(config.py line 111) and `Element.has` (line 152): dict lookup for any
dict-typed value, positional indexing for lists, character indexing for
strings (`LiteralElement` over `str` and `MetadataElement` are `str`
subclasses, so they index to plain one-character strings). Every failure
cause (`KeyError` on dicts, `IndexError` on lists/strings, `TypeError`
when the value is not subscriptable or the key type does not match) is
collapsed to `none`, which is exactly the set of exception types both
call sites catch: `except (TypeError, KeyError, IndexError)`. -/
def pyIndex : Val → Key → Option Val
  | .vdict _ es, k => lookupKey es k
  | .vlist _ xs, .kint i => pyListGet xs i
  | .vstr _ s, .kint i => (pyStrGet s i).map (fun c => .vstr .rawS c)
  | _, _ => none

/-- Whether a value is an instance of an `Element` subclass, i.e. has
the `gets` / `has` / `accept` methods. Bare decoded values (`None`,
`bool`, bare numbers/strings/containers) and foreign objects are not
Elements; every wrapper class in config.py is. -/
def isElement : Val → Bool
  | .vint .litW _ => true
  | .vfloat .litW _ => true
  | .vstr .litS _ => true
  | .vstr .metadataS _ => true
  | .vlist .elemL _ => true
  | .vdict .plainD _ => true
  | .vdict .alphaD _ => true
  | .vdict .taxonomyD _ => true
  | .vdict .pcoaD _ => true
  | _ => false

/-- Outcome of `Element.gets`: either a value, or the `KeyError(first)`
raised at config.py line 118, or an `AttributeError` escaping from
`child.gets(*rest)` at line 119 when `child` is not an `Element` (that
call sits outside the `try` block, and `AttributeError` is not in the
caught tuple in any case). -/
inductive GErr where
  | keyErrorE (k : Key)
  | attrErrorE
deriving DecidableEq

/-- `Element.gets` (config.py lines 78-119). With no arguments it
returns `self`; otherwise it indexes `self[first]`, converting
`TypeError` / `KeyError` / `IndexError` into `KeyError(first)`; a child
without a `gets` method is returned directly when no path remains, and
otherwise the attribute access `child.gets` raises `AttributeError`;
a child with a `gets` method is recursed into. -/
def gets : Val → List Key → Except GErr Val
  | v, [] => .ok v
  | v, k :: rest =>
    match pyIndex v k with
    | none => .error (.keyErrorE k)
    | some child =>
      if isElement child then gets child rest
      else if rest.isEmpty then .ok child
      else .error .attrErrorE

/-- `Element.has` (config.py lines 121-156). With no arguments it
returns `True`; otherwise it evaluates `next_ = self[first]` and then
`next_.has(*rest)` inside a `try` that catches only `TypeError`,
`KeyError` and `IndexError` (returning `False`). When `next_` is not an
`Element`, the attribute access `next_.has` raises `AttributeError`,
which is not caught anywhere: modelled as `none`. -/
def has : Val → List Key → Option Bool
  | _, [] => some true
  | v, k :: rest =>
    match pyIndex v k with
    | none => some false
    | some child => if isElement child then has child rest else none

/-- `DictElement.updates` (config.py lines 171-199), as a state-passing
function on the entry list of the receiver. The result is `none` when
the call raises, and otherwise `some (r, es)` where `es` is the new
entry list and `r` records whether the call RETURNED a `ValueError`
instance: with zero keys the source executes
`return ValueError('Must receive at least one key.')` (line 187), which
returns the exception object to the caller instead of raising it.
With one key it performs `self.update(DictElement({first: value}))`.
With more keys it descends into `self[first]` when that exists and is a
`dict` instance (`isinstance(self[first], dict)`), and otherwise
replaces `self[first]` with a fresh empty `DictElement` before
descending. A bare (unconverted) dict value passes the `isinstance`
check but has no `updates` method, so the call `self[first].updates(...)`
raises `AttributeError`: modelled as `none`. -/
def updatesD : List (Key × Val) → Val → List Key → Option (Bool × List (Key × Val))
  | es, _, [] => some (true, es)
  | es, v, [k] => some (false, dictSet es k v)
  | es, v, k :: rest =>
    match lookupKey es k with
    | some (.vdict .rawD _) => none
    | some (.vdict dkw sub) =>
      (updatesD sub v rest).map fun r => (r.1, dictSet es k (.vdict dkw r.2))
    | _ =>
      (updatesD [] v rest).map fun r => (r.1, dictSet es k (.vdict .plainD r.2))

/-- The `NotImplementedError` raised by `ElementFactory.get_element`
(config.py line 417): `f"No Element for type: {type(obj)}"`; the payload
records the offending type's name. -/
inductive NIErr where
  | notImplementedE (typeName : String)
deriving DecidableEq

/-- Python `isinstance(obj, int)`: true for `bool` values as well, since
`bool` is a subclass of `int` in Python. `get_element` must therefore
test `isinstance(obj, bool)` first (config.py line 404) to keep booleans
from being wrapped as numeric literal elements. -/
def isinst_int : Val → Bool
  | .vbool _ => true
  | .vint _ _ => true
  | _ => false

/-- `ElementFactory.get_element` (config.py lines 400-417), with the
source's classification order: `None` passes through, then `bool`
passes through (checked before the general `int` case), then `int`,
`float` and `str` become literal-wrapper elements, lists become
`ListElement`, dicts become `DictElement` (both constructors shallow-copy
the given container's contents), and any other type raises
`NotImplementedError` naming the type. -/
def getElement : Val → Except NIErr Val
  | .vnone => .ok .vnone
  | .vbool b => .ok (.vbool b)
  | .vint _ n => .ok (.vint .litW n)
  | .vfloat _ q => .ok (.vfloat .litW q)
  | .vstr _ s => .ok (.vstr .litS s)
  | .vlist _ xs => .ok (.vlist .elemL xs)
  | .vdict _ es => .ok (.vdict .plainD es)
  | .vother t => .error (.notImplementedE t)

/-- The typed element constructors a schema's `element_map` can select:
`AlphaElement`, `TaxonomyElement`, `PCOAElement`, `MetadataElement`
(config.py lines 214-234). -/
inductive TKind where
  | talpha
  | ttaxonomy
  | tpcoa
  | tmetadata
deriving DecidableEq

/-- `CompatibilitySchema.element_map` (config.py lines 349-359): both
the legacy top-level spellings and the current dunder spellings map to
the corresponding typed element constructors. -/
def compat_element_map (s : String) : Option TKind :=
  if s = "alpha_resources" then some .talpha
  else if s = "table_resources" then some .ttaxonomy
  else if s = "pcoa" then some .tpcoa
  else if s = "metadata" then some .tmetadata
  else if s = "__alpha__" then some .talpha
  else if s = "__taxonomy__" then some .ttaxonomy
  else if s = "__pcoa__" then some .tpcoa
  else if s = "__metadata__" then some .tmetadata
  else none

/-- `self.element_map().get(key, None)` at config.py line 286: only
string keys can match the map (decoded JSON keys are strings). -/
def elementMapK : Key → Option TKind
  | .kstr s => compat_element_map s
  | .kint _ => none

/-- Applying a typed element constructor to an already-converted value,
as `element_type(json_dump[key])` at config.py line 288. The dict-based
constructors (`AlphaElement` / `TaxonomyElement` / `PCOAElement`) run
`dict(x)` on the wrapped value: a dict argument has its entries copied
and retagged; an EMPTY string succeeds too, because `dict('')` iterates
zero characters and yields `{}` (an empty typed element); a NON-empty
string raises `ValueError` (each character is a length-1 sequence where
a key/value pair is required); `None`, booleans and numbers raise
`TypeError` (not iterable). All raising cases are `none`.
`MetadataElement` is a `str` subclass: on a string value it retags it.
Two Python success cases are not representable and are modelled as
failure, with no claim depending on them (the theorems below exclude
them via keyword-freeness hypotheses): `dict(xs)` on a list succeeds
when every item is a 2-element sequence with a hashable first component
(producing keys this model's `Key` type cannot express, e.g. bools),
and `MetadataElement(x)` on a non-string builds a string from `x`'s
textual representation, which is not modelled. -/
def wrapTyped : TKind → Val → Option Val
  | .talpha, .vdict _ es => some (.vdict .alphaD es)
  | .ttaxonomy, .vdict _ es => some (.vdict .taxonomyD es)
  | .tpcoa, .vdict _ es => some (.vdict .pcoaD es)
  | .talpha, .vstr _ "" => some (.vdict .alphaD [])
  | .ttaxonomy, .vstr _ "" => some (.vdict .taxonomyD [])
  | .tpcoa, .vstr _ "" => some (.vdict .pcoaD [])
  | .tmetadata, .vstr _ s => some (.vstr .metadataS s)
  | _, _ => none

/-- The per-key rewrapping step of `make_elements` (config.py lines
286-288): a key matching the element map has its (already recursed)
value rewrapped by the matching constructor; other keys keep their
value. -/
def applyElementMap (k : Key) (v : Val) : Option Val :=
  match elementMapK k with
  | some t => wrapTyped t v
  | none => some v

mutual

/-- `SchemaBase.make_elements` with the `CompatibilitySchema` element
map (config.py lines 279-290). A list has each entry replaced in place
by its recursive conversion; a dict has each value replaced in place by
its recursive conversion and then rewrapped when its key matches the
element map; the processed value (and any other value directly) is
passed to `ElementFactory.get_element`. A raised exception anywhere
(a `NotImplementedError` from `get_element` or a `ValueError` /
unmodelled constructor outcome from a typed rewrap) propagates:
modelled as `none`. -/
def make_elements : Val → Option Val
  | .vnone => (getElement .vnone).toOption
  | .vbool b => (getElement (.vbool b)).toOption
  | .vint w n => (getElement (.vint w n)).toOption
  | .vfloat w q => (getElement (.vfloat w q)).toOption
  | .vstr k s => (getElement (.vstr k s)).toOption
  | .vother t => (getElement (.vother t)).toOption
  | .vlist w xs =>
    (make_elements_list xs).bind fun ys => (getElement (.vlist w ys)).toOption
  | .vdict w es =>
    (make_elements_entries es).bind fun es2 => (getElement (.vdict w es2)).toOption

/-- The `for i, entry in enumerate(json_dump)` loop of `make_elements`
(config.py lines 280-282). -/
def make_elements_list : List Val → Option (List Val)
  | [] => some []
  | v :: rest =>
    (make_elements v).bind fun v1 =>
      (make_elements_list rest).bind fun tail => some (v1 :: tail)

/-- The `for key, value in json_dump.items()` loop of `make_elements`
(config.py lines 283-288). -/
def make_elements_entries : List (Key × Val) → Option (List (Key × Val))
  | [] => some []
  | (k, v) :: rest =>
    (make_elements v).bind fun v1 =>
      (applyElementMap k v1).bind fun v2 =>
        (make_elements_entries rest).bind fun tail => some ((k, v2) :: tail)

end

/-- Python type test `isinstance(v, str)` (any `str` subclass counts,
including the literal wrapper and `MetadataElement`). -/
def isPyStr : Val → Bool
  | .vstr _ _ => true
  | _ => false

/-- Python type test `isinstance(v, dict)` (any `dict` subclass
counts). -/
def isPyDict : Val → Bool
  | .vdict _ _ => true
  | _ => false

/-- Whether an entry list contains a given string key, as JSON-Schema's
`required` checks membership in an object. -/
def containsKeyS (es : List (Key × Val)) (s : String) : Bool :=
  (lookupKey es (.kstr s)).isSome

/-- `alpha_schema` (config.py lines 7-12): `{"type": "string"}`. -/
def alpha_schema_ok (v : Val) : Bool := isPyStr v

/-- `alpha_group_schema` (config.py lines 14-18): an object whose
additional properties all satisfy `alpha_schema`. -/
def alpha_group_schema_ok : Val → Bool
  | .vdict _ es => es.all (fun kv => alpha_schema_ok kv.2)
  | _ => false

/-- `taxonomy_schema` (config.py lines 20-34): an object with string
properties `table` and `feature-data-taxonomy`, both required;
additional properties are unconstrained (the schema declares none of
`additionalProperties`). -/
def taxonomy_schema_ok : Val → Bool
  | .vdict _ es =>
    containsKeyS es "table" && containsKeyS es "feature-data-taxonomy" &&
    es.all (fun kv =>
      match kv.1 with
      | .kstr "table" => isPyStr kv.2
      | .kstr "feature-data-taxonomy" => isPyStr kv.2
      | _ => true)
  | _ => false

/-- `taxonomy_group_schema` (config.py lines 37-41): an object whose
additional properties all satisfy `taxonomy_schema`. -/
def taxonomy_group_schema_ok : Val → Bool
  | .vdict _ es => es.all (fun kv => taxonomy_schema_ok kv.2)
  | _ => false

/-- `pcoa_schema` (config.py lines 44-51): an object whose additional
properties are all strings. -/
def pcoa_schema_ok : Val → Bool
  | .vdict _ es => es.all (fun kv => isPyStr kv.2)
  | _ => false

/-- `pcoa_group_schema` (config.py lines 54-58): an object whose
additional properties all satisfy `pcoa_schema`. -/
def pcoa_group_schema_ok : Val → Bool
  | .vdict _ es => es.all (fun kv => pcoa_schema_ok kv.2)
  | _ => false

/-- `metadata_schema` (config.py lines 61-64): `{"type": "string"}`. -/
def metadata_schema_ok (v : Val) : Bool := isPyStr v

/-- The per-dataset object inside the `datasets` property of
`CompatibilitySchema.schema` (config.py lines 375-385): declared
properties `__alpha__` / `__taxonomy__` / `__pcoa__` with the matching
group schemas, and `"additionalProperties": False`, so any other key
fails validation. -/
def dataset_entry_ok : Val → Bool
  | .vdict _ es =>
    es.all (fun kv =>
      match kv.1 with
      | .kstr "__alpha__" => alpha_group_schema_ok kv.2
      | .kstr "__taxonomy__" => taxonomy_group_schema_ok kv.2
      | .kstr "__pcoa__" => pcoa_group_schema_ok kv.2
      | _ => false)
  | _ => false

/-- The `datasets` property of `CompatibilitySchema.schema` (config.py
lines 369-386): an object with declared property `__metadata__`
(a string) and per-dataset objects as additional properties. -/
def datasets_ok : Val → Bool
  | .vdict _ es =>
    es.all (fun kv =>
      match kv.1 with
      | .kstr "__metadata__" => metadata_schema_ok kv.2
      | _ => dataset_entry_ok kv.2)
  | _ => false

/-- The per-property check of `CompatibilitySchema.schema` (config.py
lines 361-388): the declared properties (the four legacy keys and
`datasets`) are checked against their schemas; no `additionalProperties`
is declared at the top level, so unknown keys are unconstrained. -/
def compat_prop_ok (k : Key) (v : Val) : Bool :=
  match k with
  | .kstr "alpha_resources" => alpha_group_schema_ok v
  | .kstr "table_resources" => taxonomy_group_schema_ok v
  | .kstr "pcoa" => pcoa_group_schema_ok v
  | .kstr "metadata" => metadata_schema_ok v
  | .kstr "datasets" => datasets_ok v
  | _ => true

/-- `CompatibilitySchema.schema` (config.py lines 361-388), evaluated as
JSON-Schema validation does: the document must be an object, and every
property must pass its declared check. -/
def compat_schema_ok : Val → Bool
  | .vdict _ es => es.all (fun kv => compat_prop_ok kv.1 kv.2)
  | _ => false

/-- `SchemaBase.validate` for the `CompatibilitySchema` instance
(config.py lines 276-277): `jsonschema.validate` raises
`ValidationError` exactly when the document does not conform; modelled
as a Boolean. -/
def CompatibilitySchema_validate (doc : Val) : Bool := compat_schema_ok doc

/-- Configuration loading as the module bootstrap performs it with the
active `CompatibilitySchema` (config.py lines 427-439 plus the
`make_elements` entry point the schema object provides): validation
runs first and a `ValidationError` aborts loading before any tree
construction; on success the Element tree is built by `make_elements`
(which can itself fail, propagating its exception). -/
def loadCompat (doc : Val) : Option Val :=
  if CompatibilitySchema_validate doc = true then make_elements doc else none

/-- The four legacy top-level keys recognised by `LegacySchema` /
`CompatibilitySchema` (config.py lines 321-324 and 340-343). -/
def isLegacyTopKey : Key → Bool
  | .kstr s =>
    s = "alpha_resources" || s = "table_resources" || s = "pcoa" ||
      s = "metadata"
  | .kint _ => false

mutual

/-- Proof-side predicate on values: the value is built only from the
decoded-JSON constructors handled by `ElementFactory.get_element` (no
`vother`, whose conversion raises `NotImplementedError`), and no dict
key anywhere inside it matches the `CompatibilitySchema` element map,
so no typed rewrapping fires below it during `make_elements`. -/
def convertibleVal : Val → Bool
  | .vnone => true
  | .vbool _ => true
  | .vint _ _ => true
  | .vfloat _ _ => true
  | .vstr _ _ => true
  | .vlist _ xs => convertibleList xs
  | .vdict _ es => convertibleEntries es
  | .vother _ => false

/-- `convertibleVal` over list items. -/
def convertibleList : List Val → Bool
  | [] => true
  | v :: rest => convertibleVal v && convertibleList rest

/-- `convertibleVal` over dict entries: additionally no key may be an
element-map keyword. -/
def convertibleEntries : List (Key × Val) → Bool
  | [] => true
  | (k, v) :: rest =>
    (elementMapK k).isNone && convertibleVal v && convertibleEntries rest

end

/-- A visitor object as `accept` sees it: which of the four
`visit_<kind>` attributes the supplied object actually has. The
`ConfigElementVisitor` hooks (config.py lines 237-253) are abstract;
a field is `false` when the attribute is missing entirely, making
`visitor.visit_<kind>` raise `AttributeError`. -/
structure VisitorCaps where
  visit_alpha : Bool
  visit_taxonomy : Bool
  visit_pcoa : Bool
  visit_metadata : Bool

/-- The kind tag of a `visit_<kind>` callback invocation. -/
inductive VKind where
  | alphaV
  | taxonomyV
  | pcoaV
  | metadataV
deriving DecidableEq

/-- Whether a value has an `accept` attribute: exactly the `Element`
subclasses do (the comments at config.py lines 165-167 and 207-209 note
that dict/list entries may be `bool`, `None`, or unconverted values,
which have no `accept`). -/
def hasAccept (v : Val) : Bool := isElement v

mutual

/-- The `accept` protocol (config.py lines 161-234). The result's first
component is `true` when the call raises `AttributeError` (a typed
element invoking a missing `visit_<kind>` attribute, config.py lines
217/223/229/234); the second component is the ordered list of
`visit_<kind>(element)` invocations performed, including those
performed by `super().accept(visitor)` before a typed element's own
failing visit. Plain `DictElement` / `ListElement` accepts never raise
(their loop catches `AttributeError` per child), literal elements'
`accept` is `pass` (config.py lines 392-394), and `MetadataElement`
invokes `visit_metadata` without descending (line 234). Bare values
have no `accept` at all; the model's arms for them are unreachable
through `acceptEntries` / `acceptItems`, which skip them. -/
def acceptRun : Val → VisitorCaps → Bool × List (VKind × Val)
  | .vdict .plainD es, caps => (false, acceptEntries es caps)
  | .vdict .alphaD es, caps =>
    let t := acceptEntries es caps
    if caps.visit_alpha then (false, t ++ [(.alphaV, .vdict .alphaD es)])
    else (true, t)
  | .vdict .taxonomyD es, caps =>
    let t := acceptEntries es caps
    if caps.visit_taxonomy then (false, t ++ [(.taxonomyV, .vdict .taxonomyD es)])
    else (true, t)
  | .vdict .pcoaD es, caps =>
    let t := acceptEntries es caps
    if caps.visit_pcoa then (false, t ++ [(.pcoaV, .vdict .pcoaD es)])
    else (true, t)
  | .vdict .rawD _, _ => (false, [])
  | .vlist .elemL xs, caps => (false, acceptItems xs caps)
  | .vlist .rawL _, _ => (false, [])
  | .vstr .metadataS s, caps =>
    if caps.visit_metadata then (false, [(.metadataV, .vstr .metadataS s)])
    else (true, [])
  | .vstr .litS _, _ => (false, [])
  | .vstr .rawS _, _ => (false, [])
  | .vint _ _, _ => (false, [])
  | .vfloat _ _, _ => (false, [])
  | .vnone, _ => (false, [])
  | .vbool _, _ => (false, [])
  | .vother _, _ => (false, [])

/-- The `for val in self.values()` loop of `DictElement.accept`
(config.py lines 161-169): each value is visited inside a `try` that
catches `AttributeError` and continues, so a child whose visit raises
`AttributeError` anywhere still contributes the visit events it produced
before raising, and a child with no `accept` attribute is skipped (the
attribute access itself raises the caught `AttributeError`). -/
def acceptEntries : List (Key × Val) → VisitorCaps → List (VKind × Val)
  | [], _ => []
  | (_, v) :: rest, caps =>
    (if hasAccept v then (acceptRun v caps).2 else []) ++ acceptEntries rest caps

/-- The `for val in self` loop of `ListElement.accept` (config.py lines
203-211), with the same per-child `AttributeError` handling. -/
def acceptItems : List Val → VisitorCaps → List (VKind × Val)
  | [], _ => []
  | v :: rest, caps =>
    (if hasAccept v then (acceptRun v caps).2 else []) ++ acceptItems rest caps

end

/-- Proof helper: the entry list `updates` builds when it descends
through keys that are absent (or replaced), creating fresh empty
`DictElement`s for every intermediate segment. -/
def buildFresh (v : Val) : List Key → List (Key × Val)
  | [] => []
  | [k] => [(k, v)]
  | k :: rest => [(k, .vdict .plainD (buildFresh v rest))]

theorem lookupKey_dictSet_self (es : List (Key × Val)) (k : Key) (v : Val) :
    lookupKey (dictSet es k v) k = some v := by
  induction es with
  | nil => simp [dictSet, lookupKey]
  | cons kv rest ih =>
    obtain ⟨k0, v0⟩ := kv
    by_cases h : k0 = k
    · simp [dictSet, lookupKey, h]
    · simp [dictSet, lookupKey, h, ih]

theorem updatesD_from_empty (v : Val) :
    ∀ path : List Key, path ≠ [] →
      updatesD [] v path = some (false, buildFresh v path) := by
  intro path
  induction path with
  | nil => intro h; exact absurd rfl h
  | cons k rest ih =>
    intro _
    cases rest with
    | nil => simp [updatesD, buildFresh, dictSet]
    | cons k2 rest2 =>
      simp [updatesD, lookupKey, ih (by simp), buildFresh, dictSet]

theorem make_elements_entries_lookup :
    ∀ (es es2 : List (Key × Val)) (k : Key) (v : Val),
      make_elements_entries es = some es2 →
      lookupKey es k = some v →
      ∃ v1 v2, make_elements v = some v1 ∧ applyElementMap k v1 = some v2 ∧
        lookupKey es2 k = some v2 := by
  intro es
  induction es with
  | nil => intro es2 k v _ hlk; simp [lookupKey] at hlk
  | cons kv rest ih =>
    intro es2 k v hme hlk
    obtain ⟨k0, v0⟩ := kv
    rw [make_elements_entries] at hme
    rcases Option.bind_eq_some.mp hme with ⟨v1, hv1, hme2⟩
    rcases Option.bind_eq_some.mp hme2 with ⟨v2, hv2, hme3⟩
    rcases Option.bind_eq_some.mp hme3 with ⟨tail, htail, heq⟩
    rcases Option.some.inj heq
    by_cases h : k0 = k
    · subst h
      simp [lookupKey] at hlk
      subst hlk
      exact ⟨v1, v2, hv1, hv2, by simp [lookupKey]⟩
    · simp [lookupKey, h] at hlk
      rcases ih tail k v htail hlk with ⟨w1, w2, hw1, hw2, hw3⟩
      exact ⟨w1, w2, hw1, hw2, by simp [lookupKey, h, hw3]⟩

theorem mem_acceptEntries {caps : VisitorCaps} {ev : VKind × Val} :
    ∀ {es : List (Key × Val)}, ev ∈ acceptEntries es caps →
      ∃ k v, (k, v) ∈ es ∧ hasAccept v = true ∧ ev ∈ (acceptRun v caps).2 := by
  intro es
  induction es with
  | nil => intro h; simp [acceptEntries] at h
  | cons kv rest ih =>
    intro h
    obtain ⟨k0, v0⟩ := kv
    rw [acceptEntries] at h
    rcases List.mem_append.mp h with h1 | h2
    · by_cases hA : hasAccept v0 = true
      · exact ⟨k0, v0, by simp, hA, by simpa [hA] using h1⟩
      · simp [hA] at h1
    · rcases ih h2 with ⟨k, v, hmem, hA, hev⟩
      exact ⟨k, v, by simp [hmem], hA, hev⟩

theorem mem_acceptItems {caps : VisitorCaps} {ev : VKind × Val} :
    ∀ {xs : List Val}, ev ∈ acceptItems xs caps →
      ∃ v, v ∈ xs ∧ hasAccept v = true ∧ ev ∈ (acceptRun v caps).2 := by
  intro xs
  induction xs with
  | nil => intro h; simp [acceptItems] at h
  | cons v0 rest ih =>
    intro h
    rw [acceptItems] at h
    rcases List.mem_append.mp h with h1 | h2
    · by_cases hA : hasAccept v0 = true
      · exact ⟨v0, by simp, hA, by simpa [hA] using h1⟩
      · simp [hA] at h1
    · rcases ih h2 with ⟨v, hmem, hA, hev⟩
      exact ⟨v, by simp [hmem], hA, hev⟩

theorem val_sizeOf_pos (v : Val) : 0 < sizeOf v := by
  cases v <;> simp

theorem sizeOf_lt_of_entry_mem {k : Key} {v : Val} {es : List (Key × Val)}
    (h : (k, v) ∈ es) : sizeOf v < sizeOf es := by
  induction es with
  | nil => cases h
  | cons kv rest ih =>
    rcases List.mem_cons.mp h with h1 | h2
    · rcases h1
      simp only [List.cons.sizeOf_spec, Prod.mk.sizeOf_spec]
      omega
    · have := ih h2
      simp only [List.cons.sizeOf_spec]
      omega

theorem sizeOf_lt_of_item_mem {v : Val} {xs : List Val}
    (h : v ∈ xs) : sizeOf v < sizeOf xs := by
  induction xs with
  | nil => cases h
  | cons x rest ih =>
    rcases List.mem_cons.mp h with h1 | h2
    · rcases h1
      simp only [List.cons.sizeOf_spec]
      omega
    · have := ih h2
      simp only [List.cons.sizeOf_spec]
      omega

theorem acceptRun_no_alpha_aux {caps : VisitorCaps}
    (hc : caps.visit_alpha = false) :
    ∀ (n : Nat) (v : Val), sizeOf v ≤ n →
      ∀ w, (VKind.alphaV, w) ∉ (acceptRun v caps).2 := by
  intro n
  induction n with
  | zero =>
    intro v hv
    exact absurd (lt_of_lt_of_le (val_sizeOf_pos v) hv) (lt_irrefl 0)
  | succ m ih =>
    intro v hv w hmem
    have hentries : ∀ (dk : DKind) (es : List (Key × Val)),
        v = .vdict dk es → (VKind.alphaV, w) ∉ acceptEntries es caps := by
      intro dk es hveq hmem2
      rcases mem_acceptEntries hmem2 with ⟨k1, v1, hm, _, hev⟩
      have h1 : sizeOf v1 < sizeOf es := sizeOf_lt_of_entry_mem hm
      have h2 : sizeOf es < sizeOf v := by
        rw [hveq]
        simp only [Val.vdict.sizeOf_spec]
        omega
      exact ih v1 (by omega) w hev
    cases v with
    | vdict dk es =>
      cases dk with
      | rawD => simp [acceptRun] at hmem
      | plainD =>
        rw [acceptRun] at hmem
        exact hentries _ es rfl hmem
      | alphaD =>
        rw [acceptRun, hc] at hmem
        simp at hmem
        exact hentries _ es rfl hmem
      | taxonomyD =>
        rw [acceptRun] at hmem
        by_cases ht : caps.visit_taxonomy = true
        · simp [ht] at hmem
          exact hentries _ es rfl hmem
        · simp [eq_false_of_ne_true ht] at hmem
          exact hentries _ es rfl hmem
      | pcoaD =>
        rw [acceptRun] at hmem
        by_cases ht : caps.visit_pcoa = true
        · simp [ht] at hmem
          exact hentries _ es rfl hmem
        · simp [eq_false_of_ne_true ht] at hmem
          exact hentries _ es rfl hmem
    | vlist lk xs =>
      cases lk with
      | rawL => simp [acceptRun] at hmem
      | elemL =>
        rw [acceptRun] at hmem
        simp at hmem
        rcases mem_acceptItems hmem with ⟨v1, hm, _, hev⟩
        have h1 : sizeOf v1 < sizeOf xs := sizeOf_lt_of_item_mem hm
        have h2 : sizeOf xs < sizeOf (Val.vlist LKind.elemL xs) := by
          simp only [Val.vlist.sizeOf_spec]
          omega
        exact ih v1 (by omega) w hev
    | vstr sk s =>
      cases sk with
      | metadataS =>
        rw [acceptRun] at hmem
        by_cases ht : caps.visit_metadata = true
        · simp [ht] at hmem
        · simp [eq_false_of_ne_true ht] at hmem
      | litS => simp [acceptRun] at hmem
      | rawS => simp [acceptRun] at hmem
    | vnone => simp [acceptRun] at hmem
    | vbool b => simp [acceptRun] at hmem
    | vint w2 n2 => simp [acceptRun] at hmem
    | vfloat w2 q2 => simp [acceptRun] at hmem
    | vother t => simp [acceptRun] at hmem

theorem updatesD_cons_cons_inv (es : List (Key × Val)) (v : Val) (k k2 : Key)
    (rest2 : List Key) (b : Bool) (es2 : List (Key × Val))
    (h : updatesD es v (k :: k2 :: rest2) = some (b, es2)) :
    ∃ dk2 sub sub2, dk2 ≠ DKind.rawD ∧
      updatesD sub v (k2 :: rest2) = some (b, sub2) ∧
      es2 = dictSet es k (.vdict dk2 sub2) := by
  cases hlk : lookupKey es k with
  | none =>
    simp only [updatesD, hlk] at h
    rcases Option.map_eq_some'.mp h with ⟨⟨b2, sub2⟩, hs, heq⟩
    rcases Prod.mk.injEq .. ▸ heq with ⟨hb, hes⟩
    exact ⟨.plainD, [], sub2, by simp, hb ▸ hs, hes.symm⟩
  | some w =>
    cases w with
    | vdict dkw sub =>
      cases dkw with
      | rawD =>
        simp only [updatesD, hlk] at h
        exact Option.noConfusion h
      | plainD =>
        simp only [updatesD, hlk] at h
        rcases Option.map_eq_some'.mp h with ⟨⟨b2, sub2⟩, hs, heq⟩
        rcases Prod.mk.injEq .. ▸ heq with ⟨hb, hes⟩
        exact ⟨.plainD, sub, sub2, by simp, hb ▸ hs, hes.symm⟩
      | alphaD =>
        simp only [updatesD, hlk] at h
        rcases Option.map_eq_some'.mp h with ⟨⟨b2, sub2⟩, hs, heq⟩
        rcases Prod.mk.injEq .. ▸ heq with ⟨hb, hes⟩
        exact ⟨.alphaD, sub, sub2, by simp, hb ▸ hs, hes.symm⟩
      | taxonomyD =>
        simp only [updatesD, hlk] at h
        rcases Option.map_eq_some'.mp h with ⟨⟨b2, sub2⟩, hs, heq⟩
        rcases Prod.mk.injEq .. ▸ heq with ⟨hb, hes⟩
        exact ⟨.taxonomyD, sub, sub2, by simp, hb ▸ hs, hes.symm⟩
      | pcoaD =>
        simp only [updatesD, hlk] at h
        rcases Option.map_eq_some'.mp h with ⟨⟨b2, sub2⟩, hs, heq⟩
        rcases Prod.mk.injEq .. ▸ heq with ⟨hb, hes⟩
        exact ⟨.pcoaD, sub, sub2, by simp, hb ▸ hs, hes.symm⟩
    | vnone =>
      simp only [updatesD, hlk] at h
      rcases Option.map_eq_some'.mp h with ⟨⟨b2, sub2⟩, hs, heq⟩
      rcases Prod.mk.injEq .. ▸ heq with ⟨hb, hes⟩
      exact ⟨.plainD, [], sub2, by simp, hb ▸ hs, hes.symm⟩
    | vbool b3 =>
      simp only [updatesD, hlk] at h
      rcases Option.map_eq_some'.mp h with ⟨⟨b2, sub2⟩, hs, heq⟩
      rcases Prod.mk.injEq .. ▸ heq with ⟨hb, hes⟩
      exact ⟨.plainD, [], sub2, by simp, hb ▸ hs, hes.symm⟩
    | vint w2 n2 =>
      simp only [updatesD, hlk] at h
      rcases Option.map_eq_some'.mp h with ⟨⟨b2, sub2⟩, hs, heq⟩
      rcases Prod.mk.injEq .. ▸ heq with ⟨hb, hes⟩
      exact ⟨.plainD, [], sub2, by simp, hb ▸ hs, hes.symm⟩
    | vfloat w2 q2 =>
      simp only [updatesD, hlk] at h
      rcases Option.map_eq_some'.mp h with ⟨⟨b2, sub2⟩, hs, heq⟩
      rcases Prod.mk.injEq .. ▸ heq with ⟨hb, hes⟩
      exact ⟨.plainD, [], sub2, by simp, hb ▸ hs, hes.symm⟩
    | vstr sk2 s2 =>
      simp only [updatesD, hlk] at h
      rcases Option.map_eq_some'.mp h with ⟨⟨b2, sub2⟩, hs, heq⟩
      rcases Prod.mk.injEq .. ▸ heq with ⟨hb, hes⟩
      exact ⟨.plainD, [], sub2, by simp, hb ▸ hs, hes.symm⟩
    | vlist lk2 xs2 =>
      simp only [updatesD, hlk] at h
      rcases Option.map_eq_some'.mp h with ⟨⟨b2, sub2⟩, hs, heq⟩
      rcases Prod.mk.injEq .. ▸ heq with ⟨hb, hes⟩
      exact ⟨.plainD, [], sub2, by simp, hb ▸ hs, hes.symm⟩
    | vother t2 =>
      simp only [updatesD, hlk] at h
      rcases Option.map_eq_some'.mp h with ⟨⟨b2, sub2⟩, hs, heq⟩
      rcases Prod.mk.injEq .. ▸ heq with ⟨hb, hes⟩
      exact ⟨.plainD, [], sub2, by simp, hb ▸ hs, hes.symm⟩

/-- C2: calling `updates(value)` with zero path segments does NOT raise
a `ValueError`: config.py line 187 executes
`return ValueError('Must receive at least one key.')`, so the call
returns normally, handing the exception object back as the function's
return value (contradicting the docstring's `Returns: None`); the
receiving `DictElement`'s entries are left unmodified. The first
component `true` records that the returned value is the `ValueError`
instance rather than the usual `None`. -/
theorem updates_empty_path_returns_valueerror (es : List (Key × Val)) (v : Val) :
    updatesD es v [] = some (true, es) := rfl

/-- C3: `has` does not always return a Boolean — on the `DictElement`
`{'flag': True}` the lookup `has('flag')` evaluates `next_ = True` and
then `next_.has()`, and since a bare `bool` has no `has` attribute the
attribute access raises `AttributeError`, which is not in the caught
`(TypeError, KeyError, IndexError)` tuple; the exception escapes to the
caller even though the path exists (modelled as `none`). -/
theorem has_raw_bool_child_raises_attribute_error :
    has (.vdict .plainD [(.kstr "flag", .vbool true)]) [.kstr "flag"] = none := rfl

/-- C4: `gets` can let an exception other than `KeyError` escape — on
the `DictElement` `{'flag': True}`, `gets('flag', 'x')` indexes to the
bare `True`, which has no `gets` attribute, and since the remaining path
is non-empty the call `child.gets('x')` (config.py line 119, outside the
`try` block) raises `AttributeError` instead of the `KeyError('x')` the
docstring documents. -/
theorem gets_raw_bool_child_raises_attribute_error :
    gets (.vdict .plainD [(.kstr "flag", .vbool true)]) [.kstr "flag", .kstr "x"] =
      .error .attrErrorE := rfl

/-- C5 (counterexample): on the `DictElement` `{'flag': True}` with path
`('flag',)`, `gets` succeeds (returning `True`) while `has` raises
`AttributeError` rather than returning `True`, so the claimed
equivalence `has(*path) = True iff gets(*path) succeeds` fails as
stated: `has` does not return at all. -/
theorem has_iff_gets_counterexample :
    gets (.vdict .plainD [(.kstr "flag", .vbool true)]) [.kstr "flag"] =
        .ok (.vbool true) ∧
      has (.vdict .plainD [(.kstr "flag", .vbool true)]) [.kstr "flag"] = none :=
  ⟨rfl, rfl⟩

/-- C5 (amended): whenever `has(*path)` returns a Boolean at all (it can
instead raise `AttributeError` on reaching a non-`Element` child), that
Boolean is `True` exactly when `gets(*path)` succeeds without raising. -/
theorem has_some_iff_gets_ok :
    ∀ (path : List Key) (v : Val) (b : Bool), has v path = some b →
      (b = true ↔ ∃ w, gets v path = .ok w) := by
  intro path
  induction path with
  | nil =>
    intro v b hb
    simp only [has, Option.some.injEq] at hb
    subst hb
    simp [gets]
  | cons k rest ih =>
    intro v b hb
    cases hpi : pyIndex v k with
    | none =>
      simp only [has, hpi, Option.some.injEq] at hb
      subst hb
      simp [gets, hpi]
    | some child =>
      simp only [has, hpi] at hb
      by_cases hE : isElement child = true
      · rw [if_pos hE] at hb
        have := ih child b hb
        simpa [gets, hpi, hE] using this
      · rw [if_neg hE] at hb
        exact Option.noConfusion hb

/-- C5 (witness): on the two-level sample tree from the `gets`
docstring, `has` returns `True` and `gets` indeed succeeds. -/
theorem has_some_iff_gets_ok_witness :
    ∃ w, gets (.vdict .plainD [(.kstr "foo",
        .vdict .plainD [(.kstr "bar", .vstr .litS "baz")])])
      [.kstr "foo", .kstr "bar"] = .ok w :=
  (has_some_iff_gets_ok [.kstr "foo", .kstr "bar"]
    (.vdict .plainD [(.kstr "foo",
      .vdict .plainD [(.kstr "bar", .vstr .litS "baz")])]) true rfl).mp rfl

/-- C6 (counterexample): `updates` does not always succeed — on the
`DictElement` `{'a': {}}` whose value is a bare (unconverted) `dict`,
`updates(5, 'a', 'b')` passes the `isinstance(self['a'], dict)` check
but then calls `.updates` on an object with no such attribute, raising
`AttributeError`; the subsequent `gets` never runs, so the round trip
fails as stated. -/
theorem updates_raw_dict_intermediate_counterexample :
    updatesD [(.kstr "a", .vdict .rawD [])] (.vint .litW 5)
      [.kstr "a", .kstr "b"] = none := rfl

/-- C6 (amended): whenever `d.updates(value, *path)` with a non-empty
path completes without raising (it raises `AttributeError` when an
existing intermediate value is a bare unconverted `dict`), an immediate
`d.gets(*path)` returns exactly `value`, including when intermediate
containers had to be created. -/
theorem updates_then_gets_returns_value :
    ∀ (path : List Key) (es : List (Key × Val)) (v : Val) (dk : DKind)
      (b : Bool) (es2 : List (Key × Val)),
      path ≠ [] → updatesD es v path = some (b, es2) →
      gets (.vdict dk es2) path = .ok v := by
  intro path
  induction path with
  | nil => intro es v dk b es2 hne; exact absurd rfl hne
  | cons k rest ih =>
    intro es v dk b es2 hne hupd
    cases rest with
    | nil =>
      simp only [updatesD, Option.some.injEq, Prod.mk.injEq] at hupd
      rcases hupd with ⟨hb, hes⟩
      subst hes
      rw [gets]
      simp only [pyIndex, lookupKey_dictSet_self]
      by_cases hE : isElement v = true
      · simp [hE, gets]
      · simp [hE]
    | cons k2 rest2 =>
      rcases updatesD_cons_cons_inv es v k k2 rest2 b es2 hupd with
        ⟨dk2, sub, sub2, hdk2, hsub, hes2⟩
      subst hes2
      rw [gets]
      simp only [pyIndex, lookupKey_dictSet_self]
      have hE : isElement (Val.vdict dk2 sub2) = true := by
        cases dk2 with
        | rawD => exact absurd rfl hdk2
        | plainD => rfl
        | alphaD => rfl
        | taxonomyD => rfl
        | pcoaD => rfl
      rw [hE]
      simp only [if_true]
      exact ih sub v dk2 b sub2 (by simp) hsub

/-- C6 (witness): updating an empty `DictElement` at the fresh path
`('a', 3, 'b')` creates both intermediate containers, and `gets` on the
resulting entries returns the stored value. -/
theorem updates_then_gets_returns_value_witness :
    gets (.vdict .plainD [(.kstr "a", .vdict .plainD [(.kint 3,
        .vdict .plainD [(.kstr "b", .vstr .litS "val")])])])
      [.kstr "a", .kint 3, .kstr "b"] = .ok (.vstr .litS "val") :=
  updates_then_gets_returns_value [.kstr "a", .kint 3, .kstr "b"] []
    (.vstr .litS "val") .plainD false
    [(.kstr "a", .vdict .plainD [(.kint 3,
      .vdict .plainD [(.kstr "b", .vstr .litS "val")])])]
    (by simp) rfl

/-- C9: when an intermediate path segment already exists in the
`DictElement` but its value is not a `dict` instance (for example a
string or a literal element), `updates` silently overwrites it with a
fresh empty `DictElement` (config.py lines 196-198) and then descends,
so the previously stored value is destroyed rather than the call
failing: the resulting entry at that key is exactly the tree built from
an empty dict along the remaining path. -/
theorem updates_replaces_non_dict_intermediate
    (es : List (Key × Val)) (v w : Val) (k : Key) (rest : List Key)
    (hne : rest ≠ []) (hlk : lookupKey es k = some w)
    (hw : isPyDict w = false) :
    updatesD es v (k :: rest) =
      some (false, dictSet es k (.vdict .plainD (buildFresh v rest))) := by
  cases rest with
  | nil => exact absurd rfl hne
  | cons k2 rest2 =>
    have hfresh := updatesD_from_empty v (k2 :: rest2) (by simp)
    cases w with
    | vdict dkw sub => simp [isPyDict] at hw
    | vnone => simp only [updatesD, hlk, hfresh, Option.map_some']
    | vbool b => simp only [updatesD, hlk, hfresh, Option.map_some']
    | vint w2 n2 => simp only [updatesD, hlk, hfresh, Option.map_some']
    | vfloat w2 q2 => simp only [updatesD, hlk, hfresh, Option.map_some']
    | vstr sk2 s2 => simp only [updatesD, hlk, hfresh, Option.map_some']
    | vlist lk2 xs2 => simp only [updatesD, hlk, hfresh, Option.map_some']
    | vother t2 => simp only [updatesD, hlk, hfresh, Option.map_some']

/-- C9 (witness): overwriting the string stored at `'a'` by updating
along `('a', 'b')` replaces it with a fresh one-entry `DictElement`. -/
theorem updates_replaces_non_dict_intermediate_witness :
    updatesD [(.kstr "a", .vstr .litS "old")] (.vint .litW 5)
        [.kstr "a", .kstr "b"] =
      some (false, [(.kstr "a", .vdict .plainD [(.kstr "b", .vint .litW 5)])]) :=
  updates_replaces_non_dict_intermediate [(.kstr "a", .vstr .litS "old")]
    (.vint .litW 5) (.vstr .litS "old") (.kstr "a") [.kstr "b"]
    (by simp) rfl rfl

/-- C7: `ElementFactory.get_element` classifies a decoded value by
Python type: `None` and booleans pass through unchanged (a boolean
satisfies `isinstance(obj, int)` but is matched by the earlier
`isinstance(obj, bool)` test and is returned as-is, not wrapped as a
numeric literal element — witness the `isElement` component); ints,
floats and strings become literal-wrapper elements carrying the same
value; lists become `ListElement`s and dicts `DictElement`s with the
same contents; any other type raises a `NotImplementedError` naming the
offending type (`f"No Element for type: {type(obj)}"`). -/
theorem get_element_classification :
    getElement .vnone = .ok .vnone ∧
    (∀ b, isinst_int (.vbool b) = true ∧ getElement (.vbool b) = .ok (.vbool b) ∧
      isElement (.vbool b) = false) ∧
    (∀ w n, getElement (.vint w n) = .ok (.vint .litW n)) ∧
    (∀ w q, getElement (.vfloat w q) = .ok (.vfloat .litW q)) ∧
    (∀ sk s, getElement (.vstr sk s) = .ok (.vstr .litS s)) ∧
    (∀ lk xs, getElement (.vlist lk xs) = .ok (.vlist .elemL xs)) ∧
    (∀ dk es, getElement (.vdict dk es) = .ok (.vdict .plainD es)) ∧
    (∀ t, getElement (.vother t) = .error (.notImplementedE t)) :=
  ⟨rfl, fun b => ⟨rfl, rfl, rfl⟩, fun w n => rfl, fun w q => rfl,
    fun sk s => rfl, fun lk xs => rfl, fun dk es => rfl, fun t => rfl⟩

/-- C8: a taxonomy resource entry consisting of `{"table": "x.qza"}`
alone fails `CompatibilitySchema` validation (the `required` list of
`taxonomy_schema` demands both `table` and `feature-data-taxonomy`),
both under the legacy top-level `table_resources` group and under the
current `datasets.<name>.__taxonomy__` group; an entry carrying both
string keys passes; and on the invalid document configuration loading
aborts with the validation error before any tree construction. -/
theorem taxonomy_required_keys_validation :
    CompatibilitySchema_validate (.vdict .rawD [(.kstr "table_resources",
        .vdict .rawD [(.kstr "gg", .vdict .rawD
          [(.kstr "table", .vstr .rawS "x.qza")])])]) = false ∧
    CompatibilitySchema_validate (.vdict .rawD [(.kstr "datasets",
        .vdict .rawD [(.kstr "ds", .vdict .rawD [(.kstr "__taxonomy__",
          .vdict .rawD [(.kstr "gg", .vdict .rawD
            [(.kstr "table", .vstr .rawS "x.qza")])])])])]) = false ∧
    CompatibilitySchema_validate (.vdict .rawD [(.kstr "table_resources",
        .vdict .rawD [(.kstr "gg", .vdict .rawD
          [(.kstr "table", .vstr .rawS "x.qza"),
           (.kstr "feature-data-taxonomy", .vstr .rawS "y.qza")])])]) = true ∧
    loadCompat (.vdict .rawD [(.kstr "table_resources",
        .vdict .rawD [(.kstr "gg", .vdict .rawD
          [(.kstr "table", .vstr .rawS "x.qza")])])]) = none :=
  ⟨rfl, rfl, rfl, rfl⟩

theorem list_sizeOf_pos (xs : List Val) : 0 < sizeOf xs := by
  cases xs <;> simp only [List.nil.sizeOf_spec, List.cons.sizeOf_spec] <;>
    omega

theorem entries_sizeOf_pos (es : List (Key × Val)) : 0 < sizeOf es := by
  cases es <;> simp only [List.nil.sizeOf_spec, List.cons.sizeOf_spec] <;>
    omega

theorem mem_of_lookupKey :
    ∀ {es : List (Key × Val)} {k : Key} {v : Val},
      lookupKey es k = some v → (k, v) ∈ es := by
  intro es
  induction es with
  | nil => intro k v h; simp [lookupKey] at h
  | cons kv rest ih =>
    intro k v h
    obtain ⟨k0, v0⟩ := kv
    by_cases hk : k0 = k
    · subst hk
      rw [lookupKey] at h
      rw [if_pos rfl] at h
      obtain rfl := Option.some.inj h
      exact List.mem_cons_self _ _
    · simp only [lookupKey, if_neg hk] at h
      exact List.mem_cons_of_mem _ (ih h)

theorem convertibleEntries_mem :
    ∀ {es : List (Key × Val)} {k : Key} {v : Val},
      convertibleEntries es = true → (k, v) ∈ es →
      elementMapK k = none ∧ convertibleVal v = true := by
  intro es
  induction es with
  | nil => intro k v _ hm; cases hm
  | cons kv rest ih =>
    intro k v hc hm
    obtain ⟨k0, v0⟩ := kv
    rw [convertibleEntries] at hc
    simp only [Bool.and_eq_true, Option.isNone_iff_eq_none] at hc
    rcases List.mem_cons.mp hm with h1 | h2
    · rcases Prod.mk.injEq .. ▸ h1 with ⟨hk, hv⟩
      subst hk
      subst hv
      exact ⟨hc.1.1, hc.1.2⟩
    · exact ih hc.2 h2

theorem make_elements_convertible_aux : ∀ n : Nat,
    (∀ v, sizeOf v ≤ n → convertibleVal v = true →
      ∃ v2, make_elements v = some v2) ∧
    (∀ xs : List Val, sizeOf xs ≤ n → convertibleList xs = true →
      ∃ ys, make_elements_list xs = some ys) ∧
    (∀ es : List (Key × Val), sizeOf es ≤ n → convertibleEntries es = true →
      ∃ es2, make_elements_entries es = some es2) := by
  intro n
  induction n with
  | zero =>
    refine ⟨fun v hs _ => ?_, fun xs hs _ => ?_, fun es hs _ => ?_⟩
    · exact absurd (lt_of_lt_of_le (val_sizeOf_pos v) hs) (lt_irrefl 0)
    · exact absurd (lt_of_lt_of_le (list_sizeOf_pos xs) hs) (lt_irrefl 0)
    · exact absurd (lt_of_lt_of_le (entries_sizeOf_pos es) hs) (lt_irrefl 0)
  | succ m ih =>
    obtain ⟨ihv, ihl, ihe⟩ := ih
    refine ⟨fun v hs hc => ?_, fun xs hs hc => ?_, fun es hs hc => ?_⟩
    · cases v with
      | vnone =>
        exact ⟨Val.vnone, by simp [make_elements, getElement, Except.toOption]⟩
      | vbool b =>
        exact ⟨Val.vbool b,
          by simp [make_elements, getElement, Except.toOption]⟩
      | vint w n2 =>
        exact ⟨Val.vint .litW n2,
          by simp [make_elements, getElement, Except.toOption]⟩
      | vfloat w q =>
        exact ⟨Val.vfloat .litW q,
          by simp [make_elements, getElement, Except.toOption]⟩
      | vstr sk s =>
        exact ⟨Val.vstr .litS s,
          by simp [make_elements, getElement, Except.toOption]⟩
      | vother t => simp [convertibleVal] at hc
      | vlist lk xs =>
        rw [convertibleVal] at hc
        have hxs : sizeOf xs ≤ m := by
          simp only [Val.vlist.sizeOf_spec] at hs
          omega
        rcases ihl xs hxs hc with ⟨ys, hys⟩
        exact ⟨Val.vlist .elemL ys,
          by simp [make_elements, hys, getElement, Except.toOption]⟩
      | vdict dk2 es =>
        rw [convertibleVal] at hc
        have hes : sizeOf es ≤ m := by
          simp only [Val.vdict.sizeOf_spec] at hs
          omega
        rcases ihe es hes hc with ⟨es2, hes2⟩
        exact ⟨Val.vdict .plainD es2,
          by simp [make_elements, hes2, getElement, Except.toOption]⟩
    · cases xs with
      | nil => exact ⟨[], by simp [make_elements_list]⟩
      | cons v rest =>
        rw [convertibleList] at hc
        simp only [Bool.and_eq_true] at hc
        have hsv : sizeOf v ≤ m := by
          simp only [List.cons.sizeOf_spec] at hs
          omega
        have hsr : sizeOf rest ≤ m := by
          simp only [List.cons.sizeOf_spec] at hs
          omega
        rcases ihv v hsv hc.1 with ⟨v2, hv2⟩
        rcases ihl rest hsr hc.2 with ⟨ys, hys⟩
        exact ⟨v2 :: ys, by simp [make_elements_list, hv2, hys]⟩
    · cases es with
      | nil => exact ⟨[], by simp [make_elements_entries]⟩
      | cons kv rest =>
        obtain ⟨k, v⟩ := kv
        rw [convertibleEntries] at hc
        simp only [Bool.and_eq_true, Option.isNone_iff_eq_none] at hc
        have hsv : sizeOf v ≤ m := by
          simp only [List.cons.sizeOf_spec, Prod.mk.sizeOf_spec] at hs
          omega
        have hsr : sizeOf rest ≤ m := by
          simp only [List.cons.sizeOf_spec] at hs
          omega
        rcases ihv v hsv hc.1.2 with ⟨v2, hv2⟩
        rcases ihe rest hsr hc.2 with ⟨es2, hes2⟩
        exact ⟨(k, v2) :: es2,
          by simp [make_elements_entries, hv2, applyElementMap, hc.1.1, hes2]⟩

theorem make_elements_convertible (v : Val) (h : convertibleVal v = true) :
    ∃ v2, make_elements v = some v2 :=
  (make_elements_convertible_aux (sizeOf v)).1 v le_rfl h

theorem make_elements_entries_convertible (es : List (Key × Val))
    (h : convertibleEntries es = true) :
    ∃ es2, make_elements_entries es = some es2 :=
  (make_elements_convertible_aux (sizeOf es)).2.2 es le_rfl h

theorem alpha_group_shape {v : Val} (h : alpha_group_schema_ok v = true) :
    ∃ dk es, v = Val.vdict dk es := by
  cases v <;> simp [alpha_group_schema_ok] at h ⊢

theorem taxonomy_group_shape {v : Val}
    (h : taxonomy_group_schema_ok v = true) :
    ∃ dk es, v = Val.vdict dk es := by
  cases v <;> simp [taxonomy_group_schema_ok] at h ⊢

theorem pcoa_group_shape {v : Val} (h : pcoa_group_schema_ok v = true) :
    ∃ dk es, v = Val.vdict dk es := by
  cases v <;> simp [pcoa_group_schema_ok] at h ⊢

theorem metadata_shape {v : Val} (h : metadata_schema_ok v = true) :
    ∃ sk s, v = Val.vstr sk s := by
  cases v <;> simp [metadata_schema_ok, isPyStr] at h ⊢

theorem make_elements_entries_legacy_success :
    ∀ es : List (Key × Val),
      (∀ k v, (k, v) ∈ es → isLegacyTopKey k = true) →
      (∀ k v, (k, v) ∈ es → convertibleVal v = true) →
      (∀ k v, (k, v) ∈ es → compat_prop_ok k v = true) →
      ∃ es2, make_elements_entries es = some es2 := by
  intro es
  induction es with
  | nil => intro _ _ _; exact ⟨[], by simp [make_elements_entries]⟩
  | cons kv rest ih =>
    intro hkeys hconv hval
    obtain ⟨k, v⟩ := kv
    have hhead := List.mem_cons_self (k, v) rest
    rcases ih (fun k2 v2 hm => hkeys k2 v2 (List.mem_cons_of_mem _ hm))
        (fun k2 v2 hm => hconv k2 v2 (List.mem_cons_of_mem _ hm))
        (fun k2 v2 hm => hval k2 v2 (List.mem_cons_of_mem _ hm)) with
      ⟨rest2, hrest2⟩
    have hk := hkeys k v hhead
    have hc := hconv k v hhead
    have hp := hval k v hhead
    cases k with
    | kint i => simp [isLegacyTopKey] at hk
    | kstr s =>
      rw [isLegacyTopKey] at hk
      simp only [Bool.or_eq_true, decide_eq_true_eq] at hk
      rcases hk with ((hs | hs) | hs) | hs <;> subst hs
      · rcases alpha_group_shape (by simpa [compat_prop_ok] using hp) with
          ⟨gk, gs, hv⟩
        subst hv
        rw [convertibleVal] at hc
        rcases make_elements_entries_convertible gs hc with ⟨gs2, hgs2⟩
        exact ⟨(Key.kstr "alpha_resources", Val.vdict .alphaD gs2) :: rest2,
          by simp [make_elements_entries, make_elements, hgs2, getElement,
            Except.toOption, applyElementMap,
            show elementMapK (Key.kstr "alpha_resources") =
              some TKind.talpha from rfl, wrapTyped, hrest2]⟩
      · rcases taxonomy_group_shape (by simpa [compat_prop_ok] using hp) with
          ⟨gk, gs, hv⟩
        subst hv
        rw [convertibleVal] at hc
        rcases make_elements_entries_convertible gs hc with ⟨gs2, hgs2⟩
        exact ⟨(Key.kstr "table_resources", Val.vdict .taxonomyD gs2) :: rest2,
          by simp [make_elements_entries, make_elements, hgs2, getElement,
            Except.toOption, applyElementMap,
            show elementMapK (Key.kstr "table_resources") =
              some TKind.ttaxonomy from rfl, wrapTyped, hrest2]⟩
      · rcases pcoa_group_shape (by simpa [compat_prop_ok] using hp) with
          ⟨gk, gs, hv⟩
        subst hv
        rw [convertibleVal] at hc
        rcases make_elements_entries_convertible gs hc with ⟨gs2, hgs2⟩
        exact ⟨(Key.kstr "pcoa", Val.vdict .pcoaD gs2) :: rest2,
          by simp [make_elements_entries, make_elements, hgs2, getElement,
            Except.toOption, applyElementMap,
            show elementMapK (Key.kstr "pcoa") = some TKind.tpcoa from rfl,
            wrapTyped, hrest2]⟩
      · rcases metadata_shape (by simpa [compat_prop_ok] using hp) with
          ⟨sk2, s2, hv⟩
        subst hv
        exact ⟨(Key.kstr "metadata", Val.vstr .metadataS s2) :: rest2,
          by simp [make_elements_entries, make_elements, getElement,
            Except.toOption, applyElementMap,
            show elementMapK (Key.kstr "metadata") =
              some TKind.tmetadata from rfl, wrapTyped, hrest2]⟩

/-- C1 (counterexample): a document that validates under the
compatibility schema and uses only the legacy top-level keys need not
behave as claimed when a group entry name collides with an element-map
keyword. In `{"alpha_resources": {"pcoa": "/x"}}` the rewrap executes
`PCOAElement('/x')`, i.e. `dict('/x')`, which raises `ValueError`
(every character of a non-empty string is a length-1 sequence), so
loading fails and no resource value is reachable. And in
`{"alpha_resources": {"pcoa": ""}}` loading succeeds — `dict('')` is
`{}` — but `gets('alpha_resources', 'pcoa')` returns an empty
`PCOAElement`, not the configured string. Both contradict the claim as
stated. -/
theorem compat_legacy_loading_counterexample :
    (CompatibilitySchema_validate (.vdict .rawD [(.kstr "alpha_resources",
        .vdict .rawD [(.kstr "pcoa", .vstr .rawS "/x")])]) = true ∧
      loadCompat (.vdict .rawD [(.kstr "alpha_resources",
        .vdict .rawD [(.kstr "pcoa", .vstr .rawS "/x")])]) = none) ∧
    (CompatibilitySchema_validate (.vdict .rawD [(.kstr "alpha_resources",
        .vdict .rawD [(.kstr "pcoa", .vstr .rawS "")])]) = true ∧
      loadCompat (.vdict .rawD [(.kstr "alpha_resources",
          .vdict .rawD [(.kstr "pcoa", .vstr .rawS "")])]) =
        some (.vdict .plainD [(.kstr "alpha_resources", .vdict .alphaD
          [(.kstr "pcoa", .vdict .pcoaD [])])]) ∧
      gets (.vdict .plainD [(.kstr "alpha_resources", .vdict .alphaD
          [(.kstr "pcoa", .vdict .pcoaD [])])])
        [.kstr "alpha_resources", .kstr "pcoa"] = .ok (.vdict .pcoaD [])) := by
  refine ⟨⟨rfl, ?_⟩, rfl, ?_, rfl⟩
  · show make_elements (.vdict .rawD [(.kstr "alpha_resources",
      .vdict .rawD [(.kstr "pcoa", .vstr .rawS "/x")])]) = none
    simp [make_elements, make_elements_entries, applyElementMap, elementMapK,
      compat_element_map, wrapTyped, getElement, Except.toOption]
  · show make_elements (.vdict .rawD [(.kstr "alpha_resources",
        .vdict .rawD [(.kstr "pcoa", .vstr .rawS "")])]) =
      some (.vdict .plainD [(.kstr "alpha_resources", .vdict .alphaD
        [(.kstr "pcoa", .vdict .pcoaD [])])])
    simp [make_elements, make_elements_entries, applyElementMap, elementMapK,
      compat_element_map, wrapTyped, getElement, Except.toOption]

/-- C1 (amended): for a document that validates under the compatibility
schema, whose top-level keys are all legacy keys, and in which no key
below the top level is an element-map keyword (and every value is a
decoded-JSON value), loading succeeds, and every `alpha_resources`
entry is reachable on the built tree via
`gets('alpha_resources', <name>)`, returning the literal string element
carrying the configured path. Without the keyword-freeness restriction
the property fails: a group entry named by a dict-typed keyword makes
tree construction raise `ValueError` on a non-empty string value, and
on an empty string value it loads but is rewrapped as an empty typed
dict element instead of the configured string (see the
counterexample). -/
theorem compat_legacy_alpha_gets (e g : List (Key × Val)) (dk gk : DKind)
    (sk : SKind) (name p : String)
    (hval : CompatibilitySchema_validate (.vdict dk e) = true)
    (hkeys : (e.all fun kv => isLegacyTopKey kv.1) = true)
    (hconv : (e.all fun kv => convertibleVal kv.2) = true)
    (halpha : lookupKey e (.kstr "alpha_resources") = some (.vdict gk g))
    (hname : lookupKey g (.kstr name) = some (.vstr sk p)) :
    ∃ tree, loadCompat (.vdict dk e) = some tree ∧
      gets tree [.kstr "alpha_resources", .kstr name] =
        .ok (.vstr .litS p) := by
  have hvalE : ∀ k v, (k, v) ∈ e → compat_prop_ok k v = true := by
    intro k v hm
    rw [CompatibilitySchema_validate, compat_schema_ok] at hval
    exact List.all_eq_true.mp hval (k, v) hm
  rcases make_elements_entries_legacy_success e
      (fun k v hm => List.all_eq_true.mp hkeys (k, v) hm)
      (fun k v hm => List.all_eq_true.mp hconv (k, v) hm)
      hvalE with ⟨e2, he2⟩
  refine ⟨Val.vdict .plainD e2, ?_, ?_⟩
  · rw [loadCompat, if_pos hval]
    simp [make_elements, he2, getElement, Except.toOption]
  · rcases make_elements_entries_lookup e e2 _ _ he2 halpha with
      ⟨v1, v2, hv1, hv2, hlk2⟩
    simp only [make_elements] at hv1
    rcases Option.bind_eq_some.mp hv1 with ⟨g2, hg2, hv1b⟩
    simp only [getElement, Except.toOption, Option.some.injEq] at hv1b
    subst hv1b
    have hv2b : v2 = Val.vdict .alphaD g2 := by
      rw [applyElementMap,
        show elementMapK (Key.kstr "alpha_resources") = some TKind.talpha
          from rfl] at hv2
      simp only [wrapTyped, Option.some.injEq] at hv2
      exact hv2.symm
    subst hv2b
    rcases make_elements_entries_lookup g g2 _ _ hg2 hname with
      ⟨u1, u2, hu1, hu2, hlk3⟩
    simp only [make_elements, getElement, Except.toOption,
      Option.some.injEq] at hu1
    subst hu1
    have hgconv : convertibleVal (Val.vdict gk g) = true :=
      List.all_eq_true.mp hconv _ (mem_of_lookupKey halpha)
    rw [convertibleVal] at hgconv
    have hnk : elementMapK (Key.kstr name) = none :=
      (convertibleEntries_mem hgconv (mem_of_lookupKey hname)).1
    have hu2b : u2 = Val.vstr .litS p := by
      rw [applyElementMap, hnk] at hu2
      simp only [Option.some.injEq] at hu2
      exact hu2.symm
    subst hu2b
    simp [gets, pyIndex, hlk2, hlk3, isElement]

/-- C1 (witness): the claim's concrete document
`{"resources": {"alpha_resources": {"faith_pd": "/data/faith.qza"}}}`
validates, loading succeeds, and `gets('alpha_resources', 'faith_pd')`
on the built tree returns the string element `/data/faith.qza`. -/
theorem compat_legacy_alpha_gets_witness :
    ∃ tree, loadCompat (.vdict .rawD [(.kstr "alpha_resources",
        .vdict .rawD [(.kstr "faith_pd",
          .vstr .rawS "/data/faith.qza")])]) = some tree ∧
      gets tree [.kstr "alpha_resources", .kstr "faith_pd"] =
        .ok (.vstr .litS "/data/faith.qza") :=
  compat_legacy_alpha_gets
    [(.kstr "alpha_resources", .vdict .rawD
      [(.kstr "faith_pd", .vstr .rawS "/data/faith.qza")])]
    [(.kstr "faith_pd", .vstr .rawS "/data/faith.qza")]
    .rawD .rawD .rawS "faith_pd" "/data/faith.qza"
    rfl rfl
    (by simp [convertibleVal, convertibleEntries, elementMapK,
      compat_element_map])
    rfl rfl

/-- C10: the `accept` of a `DictElement` or `ListElement` containing an
`AlphaElement` child completes without error even when the supplied
visitor has no `visit_alpha` attribute at all: the `AttributeError`
raised inside the child's `accept` is caught by the parent's per-child
handler, and no `visit_alpha` invocation is ever recorded — the child's
visit is silently skipped rather than failing the traversal. -/
theorem accept_missing_hook_child_skipped (caps : VisitorCaps)
    (es : List (Key × Val)) (xs : List Val) (k : Key) (ae : List (Key × Val))
    (hc : caps.visit_alpha = false)
    (hk : lookupKey es k = some (.vdict .alphaD ae))
    (hx : (Val.vdict .alphaD ae) ∈ xs) :
    (acceptRun (.vdict .plainD es) caps).1 = false ∧
    (acceptRun (.vlist .elemL xs) caps).1 = false ∧
    (∀ w, (VKind.alphaV, w) ∉ (acceptRun (.vdict .plainD es) caps).2) ∧
    (∀ w, (VKind.alphaV, w) ∉ (acceptRun (.vlist .elemL xs) caps).2) := by
  refine ⟨by rw [acceptRun], by rw [acceptRun], ?_, ?_⟩
  · intro w
    exact acceptRun_no_alpha_aux hc (sizeOf (Val.vdict DKind.plainD es)) _
      le_rfl w
  · intro w
    exact acceptRun_no_alpha_aux hc (sizeOf (Val.vlist LKind.elemL xs)) _
      le_rfl w

/-- C10 (witness): a visitor with every hook except `visit_alpha`, run
over a `DictElement` holding one `AlphaElement` child, completes without
error and records no alpha visit. -/
theorem accept_missing_hook_child_skipped_witness :
    (acceptRun (.vdict .plainD [(.kstr "a", .vdict .alphaD [])])
        ⟨false, true, true, true⟩).1 = false ∧
    (VKind.alphaV, (Val.vdict .alphaD [])) ∉
      (acceptRun (.vdict .plainD [(.kstr "a", .vdict .alphaD [])])
        ⟨false, true, true, true⟩).2 := by
  have h := accept_missing_hook_child_skipped ⟨false, true, true, true⟩
    [(.kstr "a", .vdict .alphaD [])] [.vdict .alphaD []] (.kstr "a") []
    rfl rfl (by simp)
  exact ⟨h.1, h.2.2.1 _⟩

end MicrosettaConfig
